import Mathlib

/-!
Verification of the simple-redis RESP codec and hash-command layer.

Shallow embedding of the repository's `simple_string.rs` (the SimpleString
RESP codec) and `hmap.rs` (HGet / HSet / HGetAll command parsing and
execution), together with proofs of the specification's claims about them.

Byte buffers are `List Nat` (each entry one byte, `< 256` where it matters).
Rust `String` values are represented by their UTF-8 byte sequences; the
validity invariant of Rust strings is the `validUtf8` predicate, and Rust's
`String::from_utf8_lossy` is the `utf8Lossy` function below.
-/

namespace SimpleRedis

/-- Modelled from the spec: the codec error taxonomy.  `NotComplete` is the
"need more bytes" signal; `InvalidFrameType` is the malformed-frame error
raised when the buffer does not start with the expected variant tag (the
human-readable message it carries in the source is elided). -/
inductive RespError where
  | NotComplete
  | InvalidFrameType
  deriving DecidableEq, Repr

/-- Length in bytes of the CRLF terminator, as in the source constant. -/
def CRLF_LEN : Nat := 2

/-- Index of the first adjacent CR LF (13, 10) pair in a byte list, if any. -/
def findCRLF : List Nat → Option Nat
  | [] => none
  | [_] => none
  | a :: b :: rest =>
    if a = 13 ∧ b = 10 then some 0
    else (findCRLF (b :: rest)).map (fun n => n + 1)

/-- Decides whether a byte list contains an adjacent CR LF pair. -/
def hasCRLF : List Nat → Bool
  | [] => false
  | [_] => false
  | a :: b :: rest => if a = 13 ∧ b = 10 then true else hasCRLF (b :: rest)

/-- Modelled from the spec: the shared helper `extract_simple_frame_data`
(declared outside the given sources) locates a complete simple-line frame at
the front of the buffer.  Per the spec, a buffer that does not start with the
variant tag is the malformed-frame case, and a buffer with no CRLF terminator
among the currently buffered bytes yields the "not complete" signal; on
success it returns the index of the terminator.  The buffer is read only. -/
def extract_simple_frame_data (buf : List Nat) (pfx : List Nat) : Except RespError Nat :=
  if buf.take pfx.length = pfx then
    match findCRLF buf with
    | some e => Except.ok e
    | none => Except.error RespError.NotComplete
  else
    Except.error RespError.InvalidFrameType

/-- The `SimpleString` newtype of the source, holding the UTF-8 bytes of its
Rust `String` payload. -/
structure SimpleString where
  val : List Nat
  deriving DecidableEq, Repr

/-- Replacement bytes emitted by lossy UTF-8 conversion: the UTF-8 encoding of
U+FFFD. -/
def replacementBytes : List Nat := [239, 191, 189]

/-- Lower bound for the second byte of a three-byte UTF-8 sequence headed by
`b` (0xE0 forbids overlong encodings). -/
def cont2lo (b : Nat) : Nat := if b = 224 then 160 else 128

/-- Upper bound for the second byte of a three-byte UTF-8 sequence headed by
`b` (0xED excludes surrogates). -/
def cont2hi (b : Nat) : Nat := if b = 237 then 159 else 191

/-- Lower bound for the second byte of a four-byte UTF-8 sequence headed by
`b` (0xF0 forbids overlong encodings). -/
def cont4lo (b : Nat) : Nat := if b = 240 then 144 else 128

/-- Upper bound for the second byte of a four-byte UTF-8 sequence headed by
`b` (0xF4 caps code points at U+10FFFF). -/
def cont4hi (b : Nat) : Nat := if b = 244 then 143 else 191

/-- Rust's `String::from_utf8_lossy` at the byte level: well-formed UTF-8
sequences are copied through unchanged, and each maximal invalid subpart is
replaced by the U+FFFD replacement bytes, following the substitution of
maximal subparts that the Rust standard library implements. -/
def utf8Lossy : List Nat → List Nat
  | [] => []
  | b :: rest =>
    if b < 128 then
      b :: utf8Lossy rest
    else if 194 ≤ b ∧ b ≤ 223 then
      match rest with
      | [] => replacementBytes
      | b2 :: r2 =>
        if 128 ≤ b2 ∧ b2 ≤ 191 then b :: b2 :: utf8Lossy r2
        else replacementBytes ++ utf8Lossy (b2 :: r2)
    else if 224 ≤ b ∧ b ≤ 239 then
      match rest with
      | [] => replacementBytes
      | b2 :: r2 =>
        if cont2lo b ≤ b2 ∧ b2 ≤ cont2hi b then
          match r2 with
          | [] => replacementBytes
          | b3 :: r3 =>
            if 128 ≤ b3 ∧ b3 ≤ 191 then b :: b2 :: b3 :: utf8Lossy r3
            else replacementBytes ++ utf8Lossy (b3 :: r3)
        else replacementBytes ++ utf8Lossy (b2 :: r2)
    else if 240 ≤ b ∧ b ≤ 244 then
      match rest with
      | [] => replacementBytes
      | b2 :: r2 =>
        if cont4lo b ≤ b2 ∧ b2 ≤ cont4hi b then
          match r2 with
          | [] => replacementBytes
          | b3 :: r3 =>
            if 128 ≤ b3 ∧ b3 ≤ 191 then
              match r3 with
              | [] => replacementBytes
              | b4 :: r4 =>
                if 128 ≤ b4 ∧ b4 ≤ 191 then b :: b2 :: b3 :: b4 :: utf8Lossy r4
                else replacementBytes ++ utf8Lossy (b4 :: r4)
            else replacementBytes ++ utf8Lossy (b3 :: r3)
        else replacementBytes ++ utf8Lossy (b2 :: r2)
    else
      replacementBytes ++ utf8Lossy rest

/-- Decides whether a byte list is well-formed UTF-8, mirroring the byte-class
analysis of `utf8Lossy` (and Rust's `String::from_utf8` validity check). -/
def validUtf8 : List Nat → Bool
  | [] => true
  | b :: rest =>
    if b < 128 then
      validUtf8 rest
    else if 194 ≤ b ∧ b ≤ 223 then
      match rest with
      | [] => false
      | b2 :: r2 => if 128 ≤ b2 ∧ b2 ≤ 191 then validUtf8 r2 else false
    else if 224 ≤ b ∧ b ≤ 239 then
      match rest with
      | [] => false
      | b2 :: r2 =>
        if cont2lo b ≤ b2 ∧ b2 ≤ cont2hi b then
          match r2 with
          | [] => false
          | b3 :: r3 => if 128 ≤ b3 ∧ b3 ≤ 191 then validUtf8 r3 else false
        else false
    else if 240 ≤ b ∧ b ≤ 244 then
      match rest with
      | [] => false
      | b2 :: r2 =>
        if cont4lo b ≤ b2 ∧ b2 ≤ cont4hi b then
          match r2 with
          | [] => false
          | b3 :: r3 =>
            if 128 ≤ b3 ∧ b3 ≤ 191 then
              match r3 with
              | [] => false
              | b4 :: r4 => if 128 ≤ b4 ∧ b4 ≤ 191 then validUtf8 r4 else false
            else false
        else false
    else false

/-- The `RespEncode` implementation for `SimpleString` in the source:
`format!("+{}\x7b\x7d\r\n", self.0).into_bytes()` is the tag byte 43,
the payload bytes, then CR LF. -/
def SimpleString.encode (v : SimpleString) : List Nat :=
  43 :: v.val ++ [13, 10]

/-- The `RespDecode::decode` implementation for `SimpleString` in the source.
The returned list is the buffer content after the call: on error the source
returns before touching the buffer, and on success `split_to(end + CRLF_LEN)`
removes the frame bytes from the front; the payload bytes between the tag and
the terminator pass through `String::from_utf8_lossy`. -/
def SimpleString.decode (buf : List Nat) : Except RespError SimpleString × List Nat :=
  match extract_simple_frame_data buf [43] with
  | Except.error e => (Except.error e, buf)
  | Except.ok e =>
    (Except.ok ⟨utf8Lossy ((buf.drop 1).take (e - 1))⟩, buf.drop (e + CRLF_LEN))

/-- The `RespDecode::expect_length` implementation for `SimpleString` in the
source: the terminator index plus `CRLF_LEN`, over an immutable view of the
buffer. -/
def SimpleString.expect_length (buf : List Nat) : Except RespError Nat :=
  match extract_simple_frame_data buf [43] with
  | Except.error e => Except.error e
  | Except.ok e => Except.ok (e + CRLF_LEN)

/-- Modelled from the spec: the `RespFrame` union over the wire variants
(declared outside the given sources).  Payloads are their natural semantic
shapes: byte lists for strings, frame lists for aggregates, an association
list for maps.  The `Double` variant is omitted: it is floating point and no
claim concerns it.  The `BulkString` newtype is collapsed to its byte list. -/
inductive RespFrame where
  | SimpleStr (v : SimpleString)
  | ErrFrame (s : List Nat)
  | Integer (i : Int)
  | BulkString (bs : List Nat)
  | Null
  | Boolean (b : Bool)
  | Array (elems : List RespFrame)
  | Map (entries : List (List Nat × RespFrame))
  | SetFrame (elems : List RespFrame)

/-- Bytes of the command name "hget". -/
def hgetName : List Nat := [104, 103, 101, 116]

/-- Bytes of the command name "hset". -/
def hsetName : List Nat := [104, 115, 101, 116]

/-- Bytes of the command name "hgetall". -/
def hgetallName : List Nat := [104, 103, 101, 116, 97, 108, 108]

/-- Modelled from the spec: the command-parser error taxonomy.
`InvalidCommand` carries a human-readable description; `Utf8Error` is the
conversion of `FromUtf8Error` raised by `String::from_utf8`. -/
inductive CommandError where
  | InvalidCommand (msg : String)
  | Utf8Error

/-- Lookup in an association list with byte-list keys, as the backend's
shared map provides. -/
def assoc (k : List Nat) : List (List Nat × α) → Option α
  | [] => none
  | (k2, v) :: rest => if k = k2 then some v else assoc k rest

/-- Insert-or-overwrite in an association list, keeping keys unique. -/
def setAssoc (k : List Nat) (v : α) : List (List Nat × α) → List (List Nat × α)
  | [] => [(k, v)]
  | (k2, w) :: rest => if k = k2 then (k, v) :: rest else (k2, w) :: setAssoc k v rest

/-- Modelled from the spec: the shared backend state, a mapping from string
key to a per-key field-to-Frame map (strings as their UTF-8 bytes). -/
def Backend : Type := List (List Nat × List (List Nat × RespFrame))

/-- Modelled from the spec: `hget(key, field)` returns the stored value, or
absent if either the key or the field does not exist; a pure read. -/
def Backend.hget (b : Backend) (key fld : List Nat) : Option RespFrame :=
  match assoc key b with
  | some m => assoc fld m
  | none => none

/-- Modelled from the spec: `hset(key, field, value)` inserts or overwrites
the value at the pair, creating the per-key container if absent; always
succeeds. -/
def Backend.hset (b : Backend) (key fld : List Nat) (v : RespFrame) : Backend :=
  setAssoc key
    (setAssoc fld v
      (match assoc key b with
       | some m => m
       | none => []))
    b

/-- Modelled from the spec: `hgetall(key)` returns a snapshot of all
field-to-value pairs for the key, or absent if the key has no entries. -/
def Backend.hgetall (b : Backend) (key : List Nat) : Option (List (List Nat × RespFrame)) :=
  assoc key b

/-- The `HGet` command struct of the source. -/
structure HGet where
  key : List Nat
  fld : List Nat

/-- The `HSet` command struct of the source. -/
structure HSet where
  key : List Nat
  fld : List Nat
  value : RespFrame

/-- The `HGetAll` command struct of the source. -/
structure HGetAll where
  key : List Nat

/-- The `RESP_OK` constant of the source: the fixed "OK" simple-string
frame (bytes 79, 75). -/
def RESP_OK : RespFrame := RespFrame.SimpleStr ⟨[79, 75]⟩

/-- ASCII lowercasing of a byte, as `u8::to_ascii_lowercase`. -/
def asciiLowerByte (b : Nat) : Nat := if 65 ≤ b ∧ b ≤ 90 then b + 32 else b

/-- ASCII lowercasing of a byte list, as `[u8]::to_ascii_lowercase`. -/
def asciiLower (l : List Nat) : List Nat := l.map asciiLowerByte

/-- Decides whether position `i` of an array frame holds a bulk string. -/
def bulkStringAt (v : List RespFrame) (i : Nat) : Bool :=
  match v.get? i with
  | some (RespFrame.BulkString _) => true
  | _ => false

/-- Decides whether position `i` of an array frame holds a bulk string whose
bytes are well-formed UTF-8. -/
def utf8BulkAt (v : List RespFrame) (i : Nat) : Bool :=
  match v.get? i with
  | some (RespFrame.BulkString bs) => validUtf8 bs
  | _ => false

/-- Decides whether the first element of an array frame is a bulk string
whose ASCII-lowercased bytes equal the given command name. -/
def nameOk (v : List RespFrame) (name : List Nat) : Bool :=
  match v.get? 0 with
  | some (RespFrame.BulkString c) => asciiLower c = name
  | _ => false

/-- Rendering of the claim for HGet parsing: the first element is a bulk
string lowercasing to "hget", the element count is exactly 1 + 2, both the
key and the field positions are bulk strings, and both are valid UTF-8. -/
def hgetClaimOk (v : List RespFrame) : Bool :=
  nameOk v hgetName && v.length = 3 && utf8BulkAt v 1 && utf8BulkAt v 2

/-- Weakening of `hgetClaimOk` that drops the UTF-8 requirement, used to
separate the shape-mismatch errors from the UTF-8 errors. -/
def hgetShapeOk (v : List RespFrame) : Bool :=
  nameOk v hgetName && v.length = 3 && bulkStringAt v 1 && bulkStringAt v 2

/-- Rendering of the claim for HSet parsing: the first element is a bulk
string lowercasing to "hset", the element count is exactly 1 + 3, the key and
field positions are bulk strings, and both are valid UTF-8 (the value
position may hold any frame). -/
def hsetClaimOk (v : List RespFrame) : Bool :=
  nameOk v hsetName && v.length = 4 && utf8BulkAt v 1 && utf8BulkAt v 2

/-- Weakening of `hsetClaimOk` that drops the UTF-8 requirement. -/
def hsetShapeOk (v : List RespFrame) : Bool :=
  nameOk v hsetName && v.length = 4 && bulkStringAt v 1 && bulkStringAt v 2

/-- Rendering of the claim for HGetAll parsing: the first element is a bulk
string lowercasing to "hgetall", the element count is exactly 1 + 1, and the
key position is a valid-UTF-8 bulk string. -/
def hgetallClaimOk (v : List RespFrame) : Bool :=
  nameOk v hgetallName && v.length = 2 && utf8BulkAt v 1

/-- Weakening of `hgetallClaimOk` that drops the UTF-8 requirement. -/
def hgetallShapeOk (v : List RespFrame) : Bool :=
  nameOk v hgetallName && v.length = 2 && bulkStringAt v 1

/-- The `CommandExecutor` implementation for `HGet` in the source: the stored
frame when present, the `Null` frame otherwise.  The second component is the
backend after the call; the source takes the backend by shared reference and
performs a pure read. -/
def HGet.execute (c : HGet) (b : Backend) : RespFrame × Backend :=
  (match b.hget c.key c.fld with
   | some v => v
   | none => RespFrame.Null, b)

/-- The `CommandExecutor` implementation for `HSet` in the source: performs
the write and returns the fixed `RESP_OK` frame. -/
def HSet.execute (c : HSet) (b : Backend) : RespFrame × Backend :=
  (RESP_OK, b.hset c.key c.fld c.value)

/-- The `CommandExecutor` implementation for `HGetAll` in the source: a `Map`
frame collected from the snapshot when the key exists, otherwise an empty
`Array` frame (the source collects the snapshot pairs into its map payload;
the payload order is not observable by any claim and is kept as-is here). -/
def HGetAll.execute (c : HGetAll) (b : Backend) : RespFrame × Backend :=
  (match b.hgetall c.key with
   | some m => RespFrame.Map m
   | none => RespFrame.Array [], b)

/-- Modelled from the spec: the name-checking loop of `validate_command` -
element `i` must be a bulk string whose ASCII-lowercased bytes equal the
expected name at position `i`. -/
def checkNames : List RespFrame → List (List Nat) → Except CommandError Unit
  | _, [] => Except.ok ()
  | [], _ :: _ => Except.error (CommandError.InvalidCommand "invalid command")
  | f :: fs, n :: ns =>
    match f with
    | RespFrame.BulkString cmd =>
      if asciiLower cmd = n then checkNames fs ns
      else Except.error (CommandError.InvalidCommand "invalid command name")
    | _ => Except.error (CommandError.InvalidCommand "command name must be a bulk string")

/-- Modelled from the spec: `validate_command(array, expected_names,
expected_arg_count)` - the total element count must equal the name count plus
the argument count exactly, and each leading element must be a bulk string
matching the expected name case-insensitively; mismatch on either axis is an
`InvalidCommand` error. -/
def validate_command (value : List RespFrame) (names : List (List Nat)) (n_args : Nat) :
    Except CommandError Unit :=
  if value.length = n_args + names.length then checkNames value names
  else Except.error (CommandError.InvalidCommand "wrong number of arguments")

/-- Modelled from the spec: `extract_args(array, start)` returns the elements
after the command-name prefix, preserving order; it does not fail. -/
def extract_args (value : List RespFrame) (start : Nat) : Except CommandError (List RespFrame) :=
  Except.ok (value.drop start)

/-- Rust's `String::from_utf8` over the byte-list model: the bytes themselves
when well-formed UTF-8, the `Utf8Error` conversion of `FromUtf8Error`
otherwise. -/
def string_from_utf8 (l : List Nat) : Except CommandError (List Nat) :=
  if validUtf8 l then Except.ok l else Except.error CommandError.Utf8Error

/-- The `TryFrom<RespArray> for HGet` implementation in the source: validate
the name "hget" and arity 2, then destructure the two arguments as bulk
strings and convert them to strings. -/
def HGet.tryFrom (value : List RespFrame) : Except CommandError HGet :=
  match validate_command value [hgetName] 2 with
  | Except.error e => Except.error e
  | Except.ok _ =>
    match extract_args value 1 with
    | Except.error e => Except.error e
    | Except.ok args =>
      match args with
      | RespFrame.BulkString key :: RespFrame.BulkString fld :: _ =>
        match string_from_utf8 key with
        | Except.error e => Except.error e
        | Except.ok k =>
          match string_from_utf8 fld with
          | Except.error e => Except.error e
          | Except.ok f => Except.ok ⟨k, f⟩
      | _ => Except.error (CommandError.InvalidCommand "Invalid key or field")

/-- The `TryFrom<RespArray> for HSet` implementation in the source: validate
the name "hset" and arity 3, then destructure key and field as bulk strings
and take the value as an arbitrary frame. -/
def HSet.tryFrom (value : List RespFrame) : Except CommandError HSet :=
  match validate_command value [hsetName] 3 with
  | Except.error e => Except.error e
  | Except.ok _ =>
    match extract_args value 1 with
    | Except.error e => Except.error e
    | Except.ok args =>
      match args with
      | RespFrame.BulkString key :: RespFrame.BulkString fld :: v :: _ =>
        match string_from_utf8 key with
        | Except.error e => Except.error e
        | Except.ok k =>
          match string_from_utf8 fld with
          | Except.error e => Except.error e
          | Except.ok f => Except.ok ⟨k, f, v⟩
      | _ => Except.error (CommandError.InvalidCommand "Invalid key, field or value")

/-- The `TryFrom<RespArray> for HGetAll` implementation in the source:
validate the name "hgetall" and arity 1, then destructure the key as a bulk
string. -/
def HGetAll.tryFrom (value : List RespFrame) : Except CommandError HGetAll :=
  match validate_command value [hgetallName] 1 with
  | Except.error e => Except.error e
  | Except.ok _ =>
    match extract_args value 1 with
    | Except.error e => Except.error e
    | Except.ok args =>
      match args with
      | RespFrame.BulkString key :: _ =>
        match string_from_utf8 key with
        | Except.error e => Except.error e
        | Except.ok k => Except.ok ⟨k⟩
      | _ => Except.error (CommandError.InvalidCommand "Invalid key")

/-- Drives `SimpleString.decode` a given number of times against a buffer,
collecting the decoded values and the final buffer content; `none` when any
call does not succeed. -/
def decodeTimes : Nat → List Nat → Option (List SimpleString × List Nat)
  | 0, buf => some ([], buf)
  | n + 1, buf =>
    match SimpleString.decode buf with
    | (Except.ok v, rest) =>
      match decodeTimes n rest with
      | some (vs, fin) => some (v :: vs, fin)
      | none => none
    | (Except.error _, _) => none

/-- Prepending a byte other than CR to a CRLF-free list keeps it CRLF-free. -/
theorem hasCRLF_cons_of_ne (a : Nat) (l : List Nat) (ha : ¬ a = 13) :
    hasCRLF (a :: l) = hasCRLF l := by
  cases l with
  | nil => rfl
  | cons b t => simp [hasCRLF, ha]

/-- Appending a lone CR to a CRLF-free list keeps it CRLF-free. -/
theorem hasCRLF_append_cr (s : List Nat) (h : hasCRLF s = false) :
    hasCRLF (s ++ [13]) = false := by
  induction s with
  | nil => rfl
  | cons a t iht =>
    cases t with
    | nil => simp [hasCRLF]
    | cons b t2 =>
      simp only [hasCRLF] at h
      by_cases hab : a = 13 ∧ b = 10
      · rw [if_pos hab] at h; exact absurd h (by simp)
      · rw [if_neg hab] at h
        have hx := iht h
        simp only [List.cons_append] at hx ⊢
        simp only [hasCRLF, if_neg hab]
        exact hx

/-- Prefixes of a CRLF-free list are CRLF-free. -/
theorem hasCRLF_take : ∀ (k : Nat) (l : List Nat), hasCRLF l = false →
    hasCRLF (l.take k) = false := by
  intro k
  induction k with
  | zero => intro l _; rfl
  | succ k2 ihk =>
    intro l h
    cases l with
    | nil => rfl
    | cons a t =>
      rw [List.take_succ_cons]
      cases t with
      | nil => cases k2 <;> rfl
      | cons b t2 =>
        simp only [hasCRLF] at h
        by_cases hab : a = 13 ∧ b = 10
        · rw [if_pos hab] at h; exact absurd h (by simp)
        · rw [if_neg hab] at h
          have hx := ihk (b :: t2) h
          cases k2 with
          | zero => rfl
          | succ k3 =>
            rw [List.take_succ_cons] at hx ⊢
            simp only [hasCRLF, if_neg hab]
            exact hx

/-- A CRLF-free list has no CRLF position. -/
theorem findCRLF_eq_none (l : List Nat) (h : hasCRLF l = false) : findCRLF l = none := by
  induction l with
  | nil => rfl
  | cons a t iht =>
    cases t with
    | nil => rfl
    | cons b t2 =>
      simp only [hasCRLF] at h
      by_cases hab : a = 13 ∧ b = 10
      · rw [if_pos hab] at h; exact absurd h (by simp)
      · rw [if_neg hab] at h
        simp only [findCRLF, if_neg hab, iht h]
        rfl

/-- The first CRLF of a CRLF-free list followed by a CRLF terminator sits
exactly at the end of the CRLF-free part. -/
theorem findCRLF_append_crlf (s : List Nat) (r : List Nat) (h : hasCRLF s = false) :
    findCRLF (s ++ 13 :: 10 :: r) = some s.length := by
  induction s with
  | nil => simp [findCRLF]
  | cons a t iht =>
    cases t with
    | nil => simp [findCRLF]
    | cons b t2 =>
      simp only [hasCRLF] at h
      by_cases hab : a = 13 ∧ b = 10
      · rw [if_pos hab] at h; exact absurd h (by simp)
      · rw [if_neg hab] at h
        have ih2 := iht h
        simp only [List.cons_append] at ih2 ⊢
        simp only [findCRLF, if_neg hab, ih2, Option.map_some]
        simp [List.length_cons]

/-- A found CRLF position lies strictly inside the list, with room for both
terminator bytes. -/
theorem findCRLF_some_lt (l : List Nat) (e : Nat) (h : findCRLF l = some e) :
    e + 1 < l.length := by
  induction l generalizing e with
  | nil => simp [findCRLF] at h
  | cons a t ih =>
    cases t with
    | nil => simp [findCRLF] at h
    | cons b t2 =>
      simp only [findCRLF] at h
      by_cases hab : a = 13 ∧ b = 10
      · rw [if_pos hab] at h
        simp only [Option.some.injEq] at h
        simp only [List.length_cons]
        omega
      · rw [if_neg hab] at h
        cases hf : findCRLF (b :: t2) with
        | none => rw [hf] at h; simp at h
        | some e2 =>
          rw [hf] at h
          simp at h
          have hlt := ih e2 hf
          simp only [List.length_cons] at hlt ⊢
          omega

/-- Characterization of a successful `extract_simple_frame_data` call: the
buffer starts with the tag and the CRLF terminator sits at the returned
index. -/
theorem extract_ok_iff (buf pfx : List Nat) (e : Nat) :
    extract_simple_frame_data buf pfx = Except.ok e ↔
      buf.take pfx.length = pfx ∧ findCRLF buf = some e := by
  unfold extract_simple_frame_data
  by_cases hp : buf.take pfx.length = pfx
  · rw [if_pos hp]
    cases hf : findCRLF buf <;> simp [hf, hp]
  · rw [if_neg hp]
    simp [hp]

set_option maxHeartbeats 2000000 in
/-- Lossy UTF-8 conversion is the identity on well-formed UTF-8 input, so
decoding the encoding of a Rust `String` reproduces its bytes. -/
theorem utf8Lossy_eq_of_valid (l : List Nat) : validUtf8 l = true → utf8Lossy l = l := by
  induction l using utf8Lossy.induct <;> intro hv <;>
    rw [validUtf8.eq_def] at hv <;> rw [utf8Lossy.eq_def] <;>
    (try simp only [] at hv) <;>
    first
      | rfl
      | (simp_all <;> done)
      | ((split_ifs at hv ⊢ <;> first | omega | simp_all | (simp_all <;> omega)) <;> done)
      | (simp_all <;> split_ifs <;> first | rfl | omega | simp_all)

/-- Central decode equation: a frame whose payload is CRLF-free decodes off
the front of any buffer that starts with its encoding, returning the lossily
converted payload and leaving exactly the trailing bytes. -/
theorem decode_append_of_noCRLF (s r : List Nat) (h : hasCRLF s = false) :
    SimpleString.decode (43 :: s ++ 13 :: 10 :: r) = (Except.ok ⟨utf8Lossy s⟩, r) := by
  have h43 : hasCRLF (43 :: s) = false := by
    rw [hasCRLF_cons_of_ne 43 s (by norm_num)]; exact h
  have hfind : findCRLF (43 :: s ++ 13 :: 10 :: r) = some (s.length + 1) := by
    have hx := findCRLF_append_crlf (43 :: s) r h43
    simpa using hx
  have hex : extract_simple_frame_data (43 :: s ++ 13 :: 10 :: r) [43] =
      Except.ok (s.length + 1) := by
    rw [extract_ok_iff]
    exact ⟨rfl, hfind⟩
  have hdrop : (43 :: s ++ 13 :: 10 :: r).drop (s.length + 1 + CRLF_LEN) = r := by
    show (43 :: (s ++ 13 :: 10 :: r)).drop (s.length + 3) = r
    rw [show s.length + 3 = (s.length + 2) + 1 by omega, List.drop_succ_cons]
    have hsr : s ++ 13 :: 10 :: r = (s ++ [13, 10]) ++ r := by simp
    rw [hsr, show s.length + 2 = (s ++ [13, 10]).length by simp, List.drop_left]
  have htake : ((43 :: s ++ 13 :: 10 :: r).drop 1).take (s.length + 1 - 1) = s := by
    show (s ++ 13 :: 10 :: r).take (s.length + 1 - 1) = s
    rw [show s.length + 1 - 1 = s.length by omega]
    have hsr : s ++ 13 :: 10 :: r = s ++ (13 :: 10 :: r) := rfl
    rw [hsr, List.take_left]
  simp only [SimpleString.decode, hex, hdrop, htake]

/-- Claim C1 (counterexample): the round-trip claim fails as stated for the
SimpleString whose text is "a\r\nb" (a value the constructor admits): its
encoding decodes to the value "a" with bytes left over, not to the original
value. -/
theorem claim_C1_counterexample :
    SimpleString.decode (SimpleString.encode ⟨[97, 13, 10, 98]⟩) =
        (Except.ok ⟨[97]⟩, [98, 13, 10]) ∧
      (⟨[97]⟩ : SimpleString) ≠ (⟨[97, 13, 10, 98]⟩ : SimpleString) :=
  ⟨rfl, by decide⟩

/-- Claim C1 (amended): for every SimpleString value whose byte content is
well-formed UTF-8 (the invariant of the Rust `String` it wraps) and contains
no embedded CRLF pair (the protocol invariant the spec states for simple
strings), encoding and then decoding a buffer holding exactly the encoded
bytes yields the value back and empties the buffer. -/
theorem claim_C1_roundtrip (v : SimpleString) (hu : validUtf8 v.val = true)
    (hc : hasCRLF v.val = false) :
    SimpleString.decode (SimpleString.encode v) = (Except.ok v, []) := by
  obtain ⟨s⟩ := v
  have henc : SimpleString.encode ⟨s⟩ = 43 :: s ++ 13 :: 10 :: [] := rfl
  rw [henc, decode_append_of_noCRLF s [] hc, utf8Lossy_eq_of_valid s hu]

/-- Witness for the amended claim C1 at the value "OK". -/
theorem claim_C1_roundtrip_witness :
    SimpleString.decode (SimpleString.encode ⟨[79, 75]⟩) = (Except.ok ⟨[79, 75]⟩, []) :=
  claim_C1_roundtrip ⟨[79, 75]⟩ rfl rfl

/-- Claim C2: splitting the encoding of any protocol-valid SimpleString frame
at an offset strictly inside it and decoding the first part yields the
NotComplete signal and leaves the buffer byte-for-byte unmodified; decoding
the first part with the remainder appended yields the original value with the
buffer drained, so no byte is lost or duplicated. -/
theorem claim_C2_incomplete_then_complete (v : SimpleString) (k : Nat)
    (hu : validUtf8 v.val = true) (hc : hasCRLF v.val = false)
    (hk0 : 0 < k) (hk : k < (SimpleString.encode v).length) :
    SimpleString.decode ((SimpleString.encode v).take k) =
        (Except.error RespError.NotComplete, (SimpleString.encode v).take k) ∧
      SimpleString.decode ((SimpleString.encode v).take k ++ (SimpleString.encode v).drop k) =
        (Except.ok v, []) := by
  constructor
  · have hlen : (SimpleString.encode v).length = v.val.length + 3 := by
      simp [SimpleString.encode]
    have hk2 : k ≤ v.val.length + 2 := by omega
    have hfree : hasCRLF ((SimpleString.encode v).take k) = false := by
      have h1 : SimpleString.encode v = (43 :: (v.val ++ [13])) ++ [10] := by
        simp [SimpleString.encode]
      have h0 : k - (43 :: (v.val ++ [13])).length = 0 := by
        simp only [List.length_cons, List.length_append, List.length_singleton]
        omega
      have hsplit : (SimpleString.encode v).take k = (43 :: (v.val ++ [13])).take k := by
        rw [h1, List.take_append_eq_append_take, h0]
        simp
      rw [hsplit]
      apply hasCRLF_take
      rw [hasCRLF_cons_of_ne 43 _ (by norm_num)]
      exact hasCRLF_append_cr v.val hc
    have hfn : findCRLF ((SimpleString.encode v).take k) = none :=
      findCRLF_eq_none _ hfree
    have hpfx : ((SimpleString.encode v).take k).take ([43] : List Nat).length = [43] := by
      obtain ⟨k2, rfl⟩ : ∃ k2, k = k2 + 1 := ⟨k - 1, by omega⟩
      have henc : SimpleString.encode v = 43 :: (v.val ++ [13, 10]) := rfl
      rw [henc, List.take_succ_cons]
      rfl
    have hex : extract_simple_frame_data ((SimpleString.encode v).take k) [43] =
        Except.error RespError.NotComplete := by
      unfold extract_simple_frame_data
      rw [if_pos hpfx, hfn]
    simp only [SimpleString.decode, hex]
  · rw [List.take_append_drop]
    obtain ⟨s⟩ := v
    have henc : SimpleString.encode ⟨s⟩ = 43 :: s ++ 13 :: 10 :: [] := rfl
    rw [henc, decode_append_of_noCRLF s [] hc, utf8Lossy_eq_of_valid s hu]

/-- Witness for claim C2 at the value "OK" split after two bytes. -/
theorem claim_C2_incomplete_then_complete_witness :
    SimpleString.decode [43, 79] = (Except.error RespError.NotComplete, [43, 79]) ∧
      SimpleString.decode ([43, 79] ++ [75, 13, 10]) = (Except.ok ⟨[79, 75]⟩, []) :=
  claim_C2_incomplete_then_complete ⟨[79, 75]⟩ 2 rfl rfl (by decide) (by decide)

/-- Claim C3: a buffer holding the concatenated encodings of N protocol-valid
SimpleString frames, decoded N times, yields the N values in order and leaves
the buffer empty; each successful decode removes exactly its own frame's
bytes from the front. -/
theorem claim_C3_drain (vs : List SimpleString)
    (h : ∀ v ∈ vs, validUtf8 v.val = true ∧ hasCRLF v.val = false) :
    decodeTimes vs.length ((vs.map SimpleString.encode).flatten) = some (vs, []) := by
  induction vs with
  | nil => rfl
  | cons v t ih =>
    have hv := h v (List.mem_cons_self v t)
    have ht : ∀ w ∈ t, validUtf8 w.val = true ∧ hasCRLF w.val = false :=
      fun w hw => h w (List.mem_cons_of_mem v hw)
    have hdec : SimpleString.decode (((v :: t).map SimpleString.encode).flatten) =
        (Except.ok v, (t.map SimpleString.encode).flatten) := by
      obtain ⟨s⟩ := v
      have hjoin : (((⟨s⟩ : SimpleString) :: t).map SimpleString.encode).flatten =
          43 :: s ++ 13 :: 10 :: (t.map SimpleString.encode).flatten := by
        show SimpleString.encode ⟨s⟩ ++ (t.map SimpleString.encode).flatten = _
        simp [SimpleString.encode]
      rw [hjoin, decode_append_of_noCRLF s _ hv.2, utf8Lossy_eq_of_valid s hv.1]
    rw [List.length_cons]
    simp only [decodeTimes, hdec, ih ht]

/-- Witness for claim C3 at the two values "a" and "". -/
theorem claim_C3_drain_witness :
    decodeTimes 2 [43, 97, 13, 10, 43, 13, 10] =
      some ([(⟨[97]⟩ : SimpleString), (⟨[]⟩ : SimpleString)], []) :=
  claim_C3_drain [⟨[97]⟩, ⟨[]⟩] (by decide)

/-- Claim C8: whenever decode succeeds on a buffer, expect_length succeeds on
the same buffer (which it reads without modifying) and returns exactly the
byte count decode consumes, namely the CRLF terminator position plus the
CRLF length. -/
theorem claim_C8_expect_length (buf : List Nat) (v : SimpleString) (rest : List Nat)
    (h : SimpleString.decode buf = (Except.ok v, rest)) :
    ∃ e, findCRLF buf = some e ∧
      SimpleString.expect_length buf = Except.ok (e + CRLF_LEN) ∧
      rest = buf.drop (e + CRLF_LEN) ∧
      buf.length - rest.length = e + CRLF_LEN := by
  cases hex : extract_simple_frame_data buf [43] with
  | error err =>
    simp only [SimpleString.decode, hex] at h
    simp at h
  | ok e =>
    simp only [SimpleString.decode, hex] at h
    have hr : rest = buf.drop (e + CRLF_LEN) := by
      have h2 := congrArg Prod.snd h
      simpa using h2.symm
    obtain ⟨hfx, hfind⟩ := (extract_ok_iff buf [43] e).mp hex
    have hlt := findCRLF_some_lt buf e hfind
    refine ⟨e, hfind, by simp only [SimpleString.expect_length, hex], hr, ?_⟩
    rw [hr, List.length_drop]
    simp only [CRLF_LEN] at *
    omega

/-- Witness for claim C8 at the buffer holding the encoding of "OK". -/
theorem claim_C8_expect_length_witness :
    ∃ e, findCRLF [43, 79, 75, 13, 10] = some e ∧
      SimpleString.expect_length [43, 79, 75, 13, 10] = Except.ok (e + CRLF_LEN) ∧
      ([] : List Nat) = [43, 79, 75, 13, 10].drop (e + CRLF_LEN) ∧
      [43, 79, 75, 13, 10].length - ([] : List Nat).length = e + CRLF_LEN :=
  claim_C8_expect_length [43, 79, 75, 13, 10] ⟨[79, 75]⟩ [] rfl

/-- Claim C9 (counterexample): for a payload containing an embedded CRLF the
claim fails as stated - decode still succeeds, but it yields only the bytes
before the embedded CRLF, not the lossy conversion of the whole payload. -/
theorem claim_C9_counterexample :
    SimpleString.decode (43 :: [97, 13, 10, 98] ++ [13, 10]) =
        (Except.ok ⟨[97]⟩, [98, 13, 10]) ∧
      (⟨[97]⟩ : SimpleString) ≠ (⟨utf8Lossy [97, 13, 10, 98]⟩ : SimpleString) :=
  ⟨rfl, by decide⟩

/-- Claim C9 (amended): decode is total over CRLF-free payload bytes: for
every buffer holding the tag byte, arbitrary CRLF-free payload bytes (in
particular bytes that are not valid UTF-8), and a CRLF terminator, decode
succeeds and yields the lossily UTF-8-converted payload text rather than an
error, consuming the whole buffer. -/
theorem claim_C9_lossy_total (payload : List Nat) (h : hasCRLF payload = false) :
    SimpleString.decode (43 :: payload ++ [13, 10]) =
      (Except.ok ⟨utf8Lossy payload⟩, []) :=
  decode_append_of_noCRLF payload [] h

/-- Witness for the amended claim C9 at the invalid-UTF-8 payload 0xFF, which
decodes to the replacement character bytes. -/
theorem claim_C9_lossy_total_witness :
    SimpleString.decode (43 :: [255] ++ [13, 10]) =
      (Except.ok ⟨[239, 191, 189]⟩, []) :=
  claim_C9_lossy_total [255] rfl

/-- Claim C10: encoding a SimpleString whose text has an embedded CRLF (after
a CRLF-free, well-formed-UTF-8 prefix) and decoding the result succeeds but
returns only the text before the first embedded CRLF, leaving the rest of the
encoded bytes in the buffer - the embedded CRLF acts as a frame terminator. -/
theorem claim_C10_embedded_crlf (a b : List Nat) (hu : validUtf8 a = true)
    (hc : hasCRLF a = false) :
    SimpleString.decode (SimpleString.encode ⟨a ++ 13 :: 10 :: b⟩) =
      (Except.ok ⟨a⟩, b ++ [13, 10]) := by
  have henc : SimpleString.encode ⟨a ++ 13 :: 10 :: b⟩ =
      43 :: a ++ 13 :: 10 :: (b ++ [13, 10]) := by
    simp [SimpleString.encode]
  rw [henc, decode_append_of_noCRLF a _ hc, utf8Lossy_eq_of_valid a hu]

/-- Witness for claim C10 at the text "hi\r\nb". -/
theorem claim_C10_embedded_crlf_witness :
    SimpleString.decode (SimpleString.encode ⟨[104, 105, 13, 10, 98]⟩) =
      (Except.ok ⟨[104, 105]⟩, [98, 13, 10]) :=
  claim_C10_embedded_crlf [104, 105] [98] rfl rfl

/-- Inserting at a key makes lookup at that key return the inserted value. -/
theorem assoc_setAssoc_self (k : List Nat) (v : α) (l : List (List Nat × α)) :
    assoc k (setAssoc k v l) = some v := by
  induction l with
  | nil => simp [setAssoc, assoc]
  | cons p t ih =>
    obtain ⟨k2, w⟩ := p
    by_cases hk : k = k2
    · simp [setAssoc, assoc, hk]
    · simp [setAssoc, assoc, hk, ih]

/-- Writing a field and reading it back through the backend returns the
written frame. -/
theorem hget_hset_self (b : Backend) (k f : List Nat) (w : RespFrame) :
    (b.hset k f w).hget k f = some w := by
  unfold Backend.hget Backend.hset
  rw [assoc_setAssoc_self]
  exact assoc_setAssoc_self f w _

/-- Claim C4: executing HGetAll returns a Map frame holding exactly the
backend's field-to-value snapshot for the key when the key exists, and the
empty Array frame - not the Null frame and not an error - when the key has no
entries; the backend is unchanged in both cases. -/
theorem claim_C4_hgetall_execute (b : Backend) (k : List Nat) :
    (∀ m, b.hgetall k = some m → HGetAll.execute ⟨k⟩ b = (RespFrame.Map m, b)) ∧
      (b.hgetall k = none →
        HGetAll.execute ⟨k⟩ b = (RespFrame.Array [], b) ∧
          RespFrame.Array [] ≠ RespFrame.Null) := by
  constructor
  · intro m hm
    simp [HGetAll.execute, hm]
  · intro hm
    exact ⟨by simp [HGetAll.execute, hm], fun hcon => RespFrame.noConfusion hcon⟩

/-- Witness for claim C4 on both sides: a backend holding one pair under the
key "k", and the empty backend. -/
theorem claim_C4_hgetall_execute_witness :
    HGetAll.execute ⟨[107]⟩ ([([107], [([102], RespFrame.Null)])] : Backend) =
        (RespFrame.Map [([102], RespFrame.Null)], [([107], [([102], RespFrame.Null)])]) ∧
      HGetAll.execute ⟨[107]⟩ ([] : Backend) = (RespFrame.Array [], ([] : Backend)) :=
  ⟨(claim_C4_hgetall_execute [([107], [([102], RespFrame.Null)])] [107]).1 _ rfl,
    ((claim_C4_hgetall_execute [] [107]).2 rfl).1⟩

/-- Claim C5: executing HGet returns the frame stored at the key and field
pair when present and the Null frame when either is absent; execution always
produces a frame and leaves the backend untouched. -/
theorem claim_C5_hget_execute (b : Backend) (k f : List Nat) :
    (∀ w, b.hget k f = some w → HGet.execute ⟨k, f⟩ b = (w, b)) ∧
      (b.hget k f = none → HGet.execute ⟨k, f⟩ b = (RespFrame.Null, b)) := by
  constructor
  · intro w hw
    simp [HGet.execute, hw]
  · intro hw
    simp [HGet.execute, hw]

/-- Witness for claim C5 on both sides: a backend holding the "OK" frame at
the pair, and the empty backend. -/
theorem claim_C5_hget_execute_witness :
    HGet.execute ⟨[107], [102]⟩ ([([107], [([102], RESP_OK)])] : Backend) =
        (RESP_OK, [([107], [([102], RESP_OK)])]) ∧
      HGet.execute ⟨[107], [102]⟩ ([] : Backend) = (RespFrame.Null, ([] : Backend)) :=
  ⟨(claim_C5_hget_execute [([107], [([102], RESP_OK)])] [107] [102]).1 _ rfl,
    (claim_C5_hget_execute [] [107] [102]).2 rfl⟩

/-- Claim C6: executing HSet returns the fixed "OK" SimpleString frame
regardless of the prior state, and stores the value so that a subsequent HGet
at the same key and field returns the value just written. -/
theorem claim_C6_hset_execute (b : Backend) (k f : List Nat) (w : RespFrame) :
    HSet.execute ⟨k, f, w⟩ b = (RESP_OK, b.hset k f w) ∧
      (HGet.execute ⟨k, f⟩ ((HSet.execute ⟨k, f, w⟩ b).2)).1 = w := by
  refine ⟨rfl, ?_⟩
  show (HGet.execute ⟨k, f⟩ (b.hset k f w)).1 = w
  simp [HGet.execute, hget_hset_self]

/-- Failures of the name-checking loop always carry the `InvalidCommand`
error constructor. -/
theorem checkNames_error : ∀ (v : List RespFrame) (ns : List (List Nat)) (e : CommandError),
    checkNames v ns = Except.error e → ∃ m, e = CommandError.InvalidCommand m := by
  intro v
  induction v with
  | nil =>
    intro ns e h
    cases ns with
    | nil => simp [checkNames] at h
    | cons n ns2 =>
      simp [checkNames] at h
      exact ⟨_, h.symm⟩
  | cons f t ih =>
    intro ns e h
    cases ns with
    | nil => simp [checkNames] at h
    | cons n ns2 =>
      cases f
      case BulkString bs =>
        simp only [checkNames] at h
        by_cases hn : asciiLower bs = n
        · rw [if_pos hn] at h
          exact ih ns2 e h
        · rw [if_neg hn] at h
          simp at h
          exact ⟨_, h.symm⟩
      all_goals
        simp [checkNames] at h
        exact ⟨_, h.symm⟩

/-- Success of the name-checking loop against a single expected name means
the list starts with a bulk string lowercasing to that name. -/
theorem checkNames_single_ok_iff (v : List RespFrame) (n : List Nat) :
    checkNames v [n] = Except.ok () ↔
      ∃ c t, v = RespFrame.BulkString c :: t ∧ asciiLower c = n := by
  cases v with
  | nil => simp [checkNames]
  | cons f t =>
    cases f
    case BulkString bs =>
      by_cases h : asciiLower bs = n <;> simp [checkNames, h]
    all_goals simp [checkNames]

/-- Success characterization of `validate_command` with a single expected
name: exact arity and a matching bulk-string command name. -/
theorem validate_single_ok_iff (v : List RespFrame) (n : List Nat) (k : Nat) :
    validate_command v [n] k = Except.ok () ↔
      (v.length = k + 1 ∧ ∃ c t, v = RespFrame.BulkString c :: t ∧ asciiLower c = n) := by
  unfold validate_command
  by_cases hl : v.length = k + [n].length
  · rw [if_pos hl]
    rw [checkNames_single_ok_iff]
    simp only [List.length_singleton] at hl
    simp [hl]
  · rw [if_neg hl]
    simp only [List.length_singleton] at hl
    simp [hl]

/-- Failures of `validate_command` always carry the `InvalidCommand` error
constructor. -/
theorem validate_single_error (v : List RespFrame) (n : List Nat) (k : Nat) (e : CommandError)
    (h : validate_command v [n] k = Except.error e) :
    ∃ m, e = CommandError.InvalidCommand m := by
  unfold validate_command at h
  by_cases hl : v.length = k + [n].length
  · rw [if_pos hl] at h
    exact checkNames_error v [n] e h
  · rw [if_neg hl] at h
    simp at h
    exact ⟨_, h.symm⟩

/-- The `nameOk` test holds exactly when the array starts with a bulk string
lowercasing to the expected name. -/
theorem nameOk_iff (v : List RespFrame) (n : List Nat) :
    nameOk v n = true ↔
      ∃ c t, v = RespFrame.BulkString c :: t ∧ asciiLower c = n := by
  cases v with
  | nil => simp [nameOk]
  | cons f t =>
    cases f
    case BulkString bs => simp [nameOk]
    all_goals simp [nameOk]

/-- HGet parsing succeeds exactly on well-shaped, valid-UTF-8 input. -/
theorem hget_ok_iff (arr : List RespFrame) :
    (∃ c, HGet.tryFrom arr = Except.ok c) ↔ hgetClaimOk arr = true := by
  cases hval : validate_command arr [hgetName] 2 with
  | error e =>
    simp only [HGet.tryFrom, hval]
    constructor
    · intro ⟨c, hc⟩
      simp at hc
    · intro hcl
      exfalso
      have h1 := hcl
      simp only [hgetClaimOk, Bool.and_eq_true, decide_eq_true_eq] at h1
      obtain ⟨⟨⟨hn, hl⟩, _⟩, _⟩ := h1
      have hok : validate_command arr [hgetName] 2 = Except.ok () :=
        (validate_single_ok_iff arr hgetName 2).mpr ⟨hl, (nameOk_iff arr hgetName).mp hn⟩
      rw [hval] at hok
      simp at hok
  | ok u =>
    cases u
    obtain ⟨hlen, c0, t0, rfl, hname⟩ := (validate_single_ok_iff arr hgetName 2).mp hval
    simp only [List.length_cons] at hlen
    obtain ⟨x, y, rfl⟩ : ∃ x y, t0 = [x, y] := by
      cases t0 with
      | nil => simp at hlen
      | cons x t1 =>
        cases t1 with
        | nil => simp at hlen
        | cons y t2 =>
          cases t2 with
          | nil => exact ⟨x, y, rfl⟩
          | cons z t3 => simp at hlen
    cases x <;> cases y <;>
      simp [HGet.tryFrom, hval, extract_args, string_from_utf8, hgetClaimOk,
        nameOk, utf8BulkAt, hname] <;>
      (try split_ifs) <;> simp_all

/-- HGet parsing on shape-mismatched input yields an InvalidCommand error. -/
theorem hget_shape_error (arr : List RespFrame) (hs : hgetShapeOk arr = false) :
    ∃ m, HGet.tryFrom arr = Except.error (CommandError.InvalidCommand m) := by
  cases hval : validate_command arr [hgetName] 2 with
  | error e =>
    obtain ⟨m, rfl⟩ := validate_single_error arr hgetName 2 e hval
    exact ⟨m, by simp [HGet.tryFrom, hval]⟩
  | ok u =>
    cases u
    obtain ⟨hlen, c0, t0, rfl, hname⟩ := (validate_single_ok_iff arr hgetName 2).mp hval
    simp only [List.length_cons] at hlen
    obtain ⟨x, y, rfl⟩ : ∃ x y, t0 = [x, y] := by
      cases t0 with
      | nil => simp at hlen
      | cons x t1 =>
        cases t1 with
        | nil => simp at hlen
        | cons y t2 =>
          cases t2 with
          | nil => exact ⟨x, y, rfl⟩
          | cons z t3 => simp at hlen
    cases x <;> cases y <;>
      simp_all [HGet.tryFrom, hval, extract_args, string_from_utf8, hgetShapeOk,
        nameOk, bulkStringAt, hname]

/-- HGet parsing on well-shaped input with a non-UTF-8 text argument yields
the Utf8Error. -/
theorem hget_utf8_error (arr : List RespFrame) (hs : hgetShapeOk arr = true)
    (hc : hgetClaimOk arr = false) :
    HGet.tryFrom arr = Except.error CommandError.Utf8Error := by
  have h1 := hs
  simp only [hgetShapeOk, Bool.and_eq_true, decide_eq_true_eq] at h1
  obtain ⟨⟨⟨hn, hl⟩, hb1⟩, hb2⟩ := h1
  obtain ⟨c0, t0, rfl, hname⟩ := (nameOk_iff arr hgetName).mp hn
  simp only [List.length_cons] at hl
  obtain ⟨x, y, rfl⟩ : ∃ x y, t0 = [x, y] := by
    cases t0 with
    | nil => simp at hl
    | cons x t1 =>
      cases t1 with
      | nil => simp at hl
      | cons y t2 =>
        cases t2 with
        | nil => exact ⟨x, y, rfl⟩
        | cons z t3 => simp at hl
  have hval : validate_command (RespFrame.BulkString c0 :: [x, y]) [hgetName] 2 =
      Except.ok () :=
    (validate_single_ok_iff _ hgetName 2).mpr ⟨by simp, c0, [x, y], rfl, hname⟩
  cases x <;> cases y <;>
    simp_all [HGet.tryFrom, hval, extract_args, string_from_utf8, hgetClaimOk,
      nameOk, utf8BulkAt, bulkStringAt, hname] <;>
    (try split_ifs) <;> simp_all

/-- HSet parsing succeeds exactly on well-shaped, valid-UTF-8 input. -/
theorem hset_ok_iff (arr : List RespFrame) :
    (∃ c, HSet.tryFrom arr = Except.ok c) ↔ hsetClaimOk arr = true := by
  cases hval : validate_command arr [hsetName] 3 with
  | error e =>
    simp only [HSet.tryFrom, hval]
    constructor
    · intro ⟨c, hc⟩
      simp at hc
    · intro hcl
      exfalso
      have h1 := hcl
      simp only [hsetClaimOk, Bool.and_eq_true, decide_eq_true_eq] at h1
      obtain ⟨⟨⟨hn, hl⟩, _⟩, _⟩ := h1
      have hok : validate_command arr [hsetName] 3 = Except.ok () :=
        (validate_single_ok_iff arr hsetName 3).mpr ⟨hl, (nameOk_iff arr hsetName).mp hn⟩
      rw [hval] at hok
      simp at hok
  | ok u =>
    cases u
    obtain ⟨hlen, c0, t0, rfl, hname⟩ := (validate_single_ok_iff arr hsetName 3).mp hval
    simp only [List.length_cons] at hlen
    obtain ⟨x, y, z, rfl⟩ : ∃ x y z, t0 = [x, y, z] := by
      cases t0 with
      | nil => simp at hlen
      | cons x t1 =>
        cases t1 with
        | nil => simp at hlen
        | cons y t2 =>
          cases t2 with
          | nil => simp at hlen
          | cons z t3 =>
            cases t3 with
            | nil => exact ⟨x, y, z, rfl⟩
            | cons w t4 => simp at hlen
    cases x <;> cases y <;>
      simp [HSet.tryFrom, hval, extract_args, string_from_utf8, hsetClaimOk,
        nameOk, utf8BulkAt, hname] <;>
      (try split_ifs) <;> simp_all

/-- HSet parsing on shape-mismatched input yields an InvalidCommand error. -/
theorem hset_shape_error (arr : List RespFrame) (hs : hsetShapeOk arr = false) :
    ∃ m, HSet.tryFrom arr = Except.error (CommandError.InvalidCommand m) := by
  cases hval : validate_command arr [hsetName] 3 with
  | error e =>
    obtain ⟨m, rfl⟩ := validate_single_error arr hsetName 3 e hval
    exact ⟨m, by simp [HSet.tryFrom, hval]⟩
  | ok u =>
    cases u
    obtain ⟨hlen, c0, t0, rfl, hname⟩ := (validate_single_ok_iff arr hsetName 3).mp hval
    simp only [List.length_cons] at hlen
    obtain ⟨x, y, z, rfl⟩ : ∃ x y z, t0 = [x, y, z] := by
      cases t0 with
      | nil => simp at hlen
      | cons x t1 =>
        cases t1 with
        | nil => simp at hlen
        | cons y t2 =>
          cases t2 with
          | nil => simp at hlen
          | cons z t3 =>
            cases t3 with
            | nil => exact ⟨x, y, z, rfl⟩
            | cons w t4 => simp at hlen
    cases x <;> cases y <;>
      simp_all [HSet.tryFrom, hval, extract_args, string_from_utf8, hsetShapeOk,
        nameOk, bulkStringAt, hname]

/-- HSet parsing on well-shaped input with a non-UTF-8 text argument yields
the Utf8Error. -/
theorem hset_utf8_error (arr : List RespFrame) (hs : hsetShapeOk arr = true)
    (hc : hsetClaimOk arr = false) :
    HSet.tryFrom arr = Except.error CommandError.Utf8Error := by
  have h1 := hs
  simp only [hsetShapeOk, Bool.and_eq_true, decide_eq_true_eq] at h1
  obtain ⟨⟨⟨hn, hl⟩, hb1⟩, hb2⟩ := h1
  obtain ⟨c0, t0, rfl, hname⟩ := (nameOk_iff arr hsetName).mp hn
  simp only [List.length_cons] at hl
  obtain ⟨x, y, z, rfl⟩ : ∃ x y z, t0 = [x, y, z] := by
    cases t0 with
    | nil => simp at hl
    | cons x t1 =>
      cases t1 with
      | nil => simp at hl
      | cons y t2 =>
        cases t2 with
        | nil => simp at hl
        | cons z t3 =>
          cases t3 with
          | nil => exact ⟨x, y, z, rfl⟩
          | cons w t4 => simp at hl
  have hval : validate_command (RespFrame.BulkString c0 :: [x, y, z]) [hsetName] 3 =
      Except.ok () :=
    (validate_single_ok_iff _ hsetName 3).mpr ⟨by simp, c0, [x, y, z], rfl, hname⟩
  cases x <;> cases y <;>
    simp_all [HSet.tryFrom, hval, extract_args, string_from_utf8, hsetClaimOk,
      nameOk, utf8BulkAt, bulkStringAt, hname] <;>
    (try split_ifs) <;> simp_all

/-- HGetAll parsing succeeds exactly on well-shaped, valid-UTF-8 input. -/
theorem hgetall_ok_iff (arr : List RespFrame) :
    (∃ c, HGetAll.tryFrom arr = Except.ok c) ↔ hgetallClaimOk arr = true := by
  cases hval : validate_command arr [hgetallName] 1 with
  | error e =>
    simp only [HGetAll.tryFrom, hval]
    constructor
    · intro ⟨c, hc⟩
      simp at hc
    · intro hcl
      exfalso
      have h1 := hcl
      simp only [hgetallClaimOk, Bool.and_eq_true, decide_eq_true_eq] at h1
      obtain ⟨⟨hn, hl⟩, _⟩ := h1
      have hok : validate_command arr [hgetallName] 1 = Except.ok () :=
        (validate_single_ok_iff arr hgetallName 1).mpr
          ⟨hl, (nameOk_iff arr hgetallName).mp hn⟩
      rw [hval] at hok
      simp at hok
  | ok u =>
    cases u
    obtain ⟨hlen, c0, t0, rfl, hname⟩ := (validate_single_ok_iff arr hgetallName 1).mp hval
    simp only [List.length_cons] at hlen
    obtain ⟨x, rfl⟩ : ∃ x, t0 = [x] := by
      cases t0 with
      | nil => simp at hlen
      | cons x t1 =>
        cases t1 with
        | nil => exact ⟨x, rfl⟩
        | cons y t2 => simp at hlen
    cases x <;>
      simp [HGetAll.tryFrom, hval, extract_args, string_from_utf8, hgetallClaimOk,
        nameOk, utf8BulkAt, hname] <;>
      (try split_ifs) <;> simp_all

/-- HGetAll parsing on shape-mismatched input yields an InvalidCommand
error. -/
theorem hgetall_shape_error (arr : List RespFrame) (hs : hgetallShapeOk arr = false) :
    ∃ m, HGetAll.tryFrom arr = Except.error (CommandError.InvalidCommand m) := by
  cases hval : validate_command arr [hgetallName] 1 with
  | error e =>
    obtain ⟨m, rfl⟩ := validate_single_error arr hgetallName 1 e hval
    exact ⟨m, by simp [HGetAll.tryFrom, hval]⟩
  | ok u =>
    cases u
    obtain ⟨hlen, c0, t0, rfl, hname⟩ := (validate_single_ok_iff arr hgetallName 1).mp hval
    simp only [List.length_cons] at hlen
    obtain ⟨x, rfl⟩ : ∃ x, t0 = [x] := by
      cases t0 with
      | nil => simp at hlen
      | cons x t1 =>
        cases t1 with
        | nil => exact ⟨x, rfl⟩
        | cons y t2 => simp at hlen
    cases x <;>
      simp_all [HGetAll.tryFrom, hval, extract_args, string_from_utf8, hgetallShapeOk,
        nameOk, bulkStringAt, hname]

/-- HGetAll parsing on well-shaped input with a non-UTF-8 key yields the
Utf8Error. -/
theorem hgetall_utf8_error (arr : List RespFrame) (hs : hgetallShapeOk arr = true)
    (hc : hgetallClaimOk arr = false) :
    HGetAll.tryFrom arr = Except.error CommandError.Utf8Error := by
  have h1 := hs
  simp only [hgetallShapeOk, Bool.and_eq_true, decide_eq_true_eq] at h1
  obtain ⟨⟨hn, hl⟩, hb1⟩ := h1
  obtain ⟨c0, t0, rfl, hname⟩ := (nameOk_iff arr hgetallName).mp hn
  simp only [List.length_cons] at hl
  obtain ⟨x, rfl⟩ : ∃ x, t0 = [x] := by
    cases t0 with
    | nil => simp at hl
    | cons x t1 =>
      cases t1 with
      | nil => exact ⟨x, rfl⟩
      | cons y t2 => simp at hl
  have hval : validate_command (RespFrame.BulkString c0 :: [x]) [hgetallName] 1 =
      Except.ok () :=
    (validate_single_ok_iff _ hgetallName 1).mpr ⟨by simp, c0, [x], rfl, hname⟩
  cases x <;>
    simp_all [HGetAll.tryFrom, hval, extract_args, string_from_utf8, hgetallClaimOk,
      nameOk, utf8BulkAt, bulkStringAt, hname] <;>
    (try split_ifs) <;> simp_all

/-- Claim C7: for every array frame, parsing into HGet, HSet or HGetAll
succeeds exactly when the first element is a bulk string whose lowercased
bytes are the command name, the element count is exactly one more than the
expected argument count, every key/field position is a bulk string, and every
text argument is valid UTF-8; otherwise parsing yields a typed error - an
InvalidCommand error whenever the name, arity or argument shape mismatches,
and the Utf8Error when the shape is right but a text argument is not valid
UTF-8 - never a partially constructed command (the parse functions are total
Lean functions, so no panic is possible). -/
theorem claim_C7_parse_validation (arr : List RespFrame) :
    ((∃ c, HGet.tryFrom arr = Except.ok c) ↔ hgetClaimOk arr = true) ∧
      (hgetShapeOk arr = false →
        ∃ m, HGet.tryFrom arr = Except.error (CommandError.InvalidCommand m)) ∧
      (hgetShapeOk arr = true → hgetClaimOk arr = false →
        HGet.tryFrom arr = Except.error CommandError.Utf8Error) ∧
      ((∃ c, HSet.tryFrom arr = Except.ok c) ↔ hsetClaimOk arr = true) ∧
      (hsetShapeOk arr = false →
        ∃ m, HSet.tryFrom arr = Except.error (CommandError.InvalidCommand m)) ∧
      (hsetShapeOk arr = true → hsetClaimOk arr = false →
        HSet.tryFrom arr = Except.error CommandError.Utf8Error) ∧
      ((∃ c, HGetAll.tryFrom arr = Except.ok c) ↔ hgetallClaimOk arr = true) ∧
      (hgetallShapeOk arr = false →
        ∃ m, HGetAll.tryFrom arr = Except.error (CommandError.InvalidCommand m)) ∧
      (hgetallShapeOk arr = true → hgetallClaimOk arr = false →
        HGetAll.tryFrom arr = Except.error CommandError.Utf8Error) :=
  ⟨hget_ok_iff arr, hget_shape_error arr, hget_utf8_error arr,
    hset_ok_iff arr, hset_shape_error arr, hset_utf8_error arr,
    hgetall_ok_iff arr, hgetall_shape_error arr, hgetall_utf8_error arr⟩

/-- Witness for claim C7: the concrete array ["hget", "key", "field"] parses
successfully; the under-length array ["hget", "key"] is rejected with an
InvalidCommand error; ["hget", "key", 0xFF-bulk-string] is rejected with the
Utf8Error. -/
theorem claim_C7_parse_validation_witness :
    (∃ c, HGet.tryFrom [RespFrame.BulkString [104, 103, 101, 116],
        RespFrame.BulkString [107, 101, 121],
        RespFrame.BulkString [102, 105, 101, 108, 100]] = Except.ok c) ∧
      (∃ m, HGet.tryFrom [RespFrame.BulkString [104, 103, 101, 116],
        RespFrame.BulkString [107, 101, 121]] =
          Except.error (CommandError.InvalidCommand m)) ∧
      HGet.tryFrom [RespFrame.BulkString [104, 103, 101, 116],
        RespFrame.BulkString [107, 101, 121], RespFrame.BulkString [255]] =
          Except.error CommandError.Utf8Error :=
  ⟨(claim_C7_parse_validation [RespFrame.BulkString [104, 103, 101, 116],
      RespFrame.BulkString [107, 101, 121],
      RespFrame.BulkString [102, 105, 101, 108, 100]]).1.mpr (by decide),
    (claim_C7_parse_validation [RespFrame.BulkString [104, 103, 101, 116],
      RespFrame.BulkString [107, 101, 121]]).2.1 (by decide),
    ((claim_C7_parse_validation [RespFrame.BulkString [104, 103, 101, 116],
      RespFrame.BulkString [107, 101, 121], RespFrame.BulkString [255]]).2.2.1
        (by decide) (by decide))⟩


end SimpleRedis
